import Mathlib

/-!
Verification development for the postgres data-retention pruner.

The definitions below are a shallow embedding of the retention logic found in
`src/models.py` (the original script models, called "legacy" here),
`src/apps/prune_server/models.py` (the reworked server models, called "server"
here) and `src/apps/prune_server/main.py` (the batch coordinator).

Modelling conventions:
* Python truthiness of the optional policy fields is made explicit
  (`None` is falsy, a dataclass instance is truthy, a list is truthy iff
  it is non-empty).
* A function that can raise a Python exception returns `Except String`
  (the payload is the exception message) or records the escape in a
  `raised` flag.
* Database interaction is modelled by an environment `Db` supplying the
  results of the two catalog queries and the success of DROP statements;
  every statement sent to the database is recorded in an ordered
  `Effect` list, and every `print` of the pruning loops is recorded as a
  `Note`.
* Wall-clock readings (`datetime.now`) are modelled as an explicit
  parameter on an integer timeline measured in seconds; the source
  re-reads the clock once per partition but no claim depends on the
  clock advancing inside one pass, so a single reading is passed in.
* Timestamps are seconds since 0001-01-01 00:00:00 UTC in the proleptic
  Gregorian calendar (the scale underlying Python `datetime.toordinal`);
  this is an order- and difference-preserving shift of the Unix scale,
  which is all that aware-datetime comparison and subtraction use.
-/

namespace Retention

/-- Row of the `conditions` list of a policy
(Python class `DataRetentionPolicyConditions`, identical in both model files). -/
structure DataRetentionPolicyConditions where
  column : String
  operator : String
  value : String
deriving DecidableEq

/-- Time-based retention configuration
(Python class `DataRetentionPolicyTimeRetention`, identical in both model files). -/
structure DataRetentionPolicyTimeRetention where
  dt_target_column : String
  retention_seconds : Int
deriving DecidableEq

/-- Retention policy with its two (both optional at runtime) variants
(Python class `DataRetentionPolicy`; the server file declares the fields
`Optional` with default `None`, the legacy file has the same runtime shape). -/
structure DataRetentionPolicy where
  timeretention : Option DataRetentionPolicyTimeRetention
  conditions : Option (List DataRetentionPolicyConditions)
deriving DecidableEq

/-- Python truthiness of `self.timeretention`: `None` is falsy, a dataclass
instance is truthy. -/
def timeretentionTruthy (p : DataRetentionPolicy) : Bool :=
  p.timeretention.isSome

/-- Python truthiness of `self.conditions`: `None` and the empty list are
falsy, a non-empty list is truthy. -/
def conditionsTruthy (p : DataRetentionPolicy) : Bool :=
  match p.conditions with
  | none => false
  | some l => !l.isEmpty

/-- `DataRetentionPolicy.validate` (src/models.py lines 26-34 and
src/apps/prune_server/models.py lines 23-30, identical logic): raises
`ValueError` when neither or both variants are truthy, otherwise returns
`True`. -/
def DataRetentionPolicy.validate (p : DataRetentionPolicy) : Except String Bool :=
  if !timeretentionTruthy p && !conditionsTruthy p then
    .error "Either timeretention or conditions must be provided"
  else if timeretentionTruthy p && conditionsTruthy p then
    .error "Only one of timeretention or conditions can be provided"
  else
    .ok true

/-- One statement sent to the database, in the order issued. -/
inductive Effect where
  /-- The parameterized `information_schema.tables` existence query of
  `PostgresTableModel.validate` (both files). -/
  | existsCheck (table_name schema : String)
  /-- The legacy `pg_inherits` child-partition query, filtered by parent
  relname only (src/models.py lines 87-96). -/
  | selectPartitions (table_name : String)
  /-- The server `pg_inherits` child-partition query, filtered by parent
  relname and schema (src/apps/prune_server/models.py lines 82-93). -/
  | selectPartitionsQ (table_name schema : String)
  /-- `DROP TABLE IF EXISTS {schema}.{name}`. -/
  | dropTable (schema name : String)
  /-- `db_connection.commit()`. -/
  | commit
deriving DecidableEq

/-- One `print` emitted by the pruning code, abstracted to its meaning. -/
inductive Note where
  /-- Partition name did not match the regex pattern; skipped. -/
  | skippedFormat (name : String)
  /-- Server only: date/time extraction or parse raised
  `IndexError`/`ValueError`; caught and skipped. -/
  | skippedParse (name : String)
  /-- Partition dropped successfully. -/
  | droppedMsg (name : String)
  /-- Server only: the DROP raised; caught, error printed, loop continues. -/
  | dropError (name : String)
  /-- Partition within retention period; kept. -/
  | retained (name : String)
  /-- Server guard print: no time retention policy, partition drop skipped. -/
  | skipNoPolicy
  /-- Server `_delete_records_by_condition`: placeholder body, prints that
  condition-based deletion is not implemented and touches no data. -/
  | deleteNotImplemented
deriving DecidableEq

/-- The database environment: results of the read-only catalog queries and
the failure behaviour of DROP statements. -/
structure Db where
  /-- Result of the existence query for (table_name, schema). -/
  tableExists : String → String → Bool
  /-- Child partition names returned by the legacy query (parent relname
  only, schema ignored). -/
  childPartitionsByName : String → List String
  /-- Child partition names returned by the server query (parent relname
  and schema). -/
  childPartitions : String → String → List String
  /-- Whether executing `DROP TABLE IF EXISTS schema.name` raises, keyed by
  the unqualified relation name being dropped. -/
  dropFails : String → Bool

/-- `PostgresTableModel` (both files): table name, schema, optional policy. -/
structure PostgresTableModel where
  table_name : String
  schema : String
  retention_policy : Option DataRetentionPolicy
deriving DecidableEq

/-- Legacy `PostgresTableModel.validate` (src/models.py lines 46-69).
The code runs the existence query, then

    if not exists:
        table_exists = False
    table_exists = True

so the final assignment unconditionally overwrites the check (line 65) and
`table_exists` is `True` whatever the catalog said.  The policy check runs
after the query and its `ValueError` propagates. -/
def legacyValidate (db : Db) (m : PostgresTableModel) : Except String Bool × List Effect :=
  let effects := [Effect.existsCheck m.table_name m.schema]
  let exists0 := db.tableExists m.table_name m.schema
  let table_exists0 : Bool := false
  let _table_exists1 : Bool := if exists0 = false then false else table_exists0
  let table_exists : Bool := true
  match m.retention_policy with
  | none => (.ok (table_exists && true), effects)
  | some p =>
    match p.validate with
    | .error msg => (.error msg, effects)
    | .ok v => (.ok (table_exists && v), effects)

/-- Server `PostgresTableModel.validate`
(src/apps/prune_server/models.py lines 44-66).  The existence query result
is kept (`fetchone` returns the one-row result of `SELECT EXISTS`, a truthy
tuple, so `table_exists` becomes the queried boolean), then the policy is
validated; a policy `ValueError` propagates, otherwise the conjunction is
returned. -/
def serverValidate (db : Db) (m : PostgresTableModel) : Except String Bool × List Effect :=
  let effects := [Effect.existsCheck m.table_name m.schema]
  let table_exists := db.tableExists m.table_name m.schema
  match m.retention_policy with
  | none => (.ok (table_exists && true), effects)
  | some p =>
    match p.validate with
    | .error msg => (.error msg, effects)
    | .ok v => (.ok (table_exists && v), effects)

/-! ## Calendar arithmetic

Python `datetime` uses the proleptic Gregorian calendar; `strptime`
validates month/day/hour/minute/second ranges and `datetime(...)`
additionally checks the day against the month length and that
`MINYEAR = 1 <= year`. -/

/-- Gregorian leap-year rule. -/
def isLeapYear (y : Nat) : Bool :=
  (y % 4 == 0 && y % 100 != 0) || y % 400 == 0

/-- Length of month `m` (1-12) of year `y`. -/
def daysInMonth (y m : Nat) : Nat :=
  if m = 2 then (if isLeapYear y then 29 else 28)
  else if m = 4 ∨ m = 6 ∨ m = 9 ∨ m = 11 then 30
  else 31

/-- Days of year `y` strictly before month `m`. -/
def daysBeforeMonth (y m : Nat) : Nat :=
  (List.range (m - 1)).foldl (fun a i => a + daysInMonth y (i + 1)) 0

/-- Days from 0001-01-01 to the given date (Python
`datetime.date.toordinal` minus one). -/
def toOrdinal (y m d : Nat) : Nat :=
  let py := y - 1
  py * 365 + py / 4 - py / 100 + py / 400 + daysBeforeMonth y m + (d - 1)

/-- Seconds from 0001-01-01 00:00:00 UTC to the given UTC datetime: the
timestamp scale of this development. -/
def toTimestamp (y mo d h mi s : Nat) : Nat :=
  toOrdinal y mo d * 86400 + h * 3600 + mi * 60 + s

/-! ## A model of `datetime.strptime`

Only the two format strings appearing in the source are modelled:
`"%Y%m%d %H%M%S"` (legacy) and `"%Y%m%d%H%M%S"` (server).  CPython
compiles each `%`-directive to a regex alternation (4 digits for `%Y`,
`1[0-2]|0[1-9]|[1-9]` for `%m`, `3[01]|[12]\d|0[1-9]|[1-9]` for `%d`,
`2[0-3]|[0-1]\d|\d` for `%H`, `[0-5]\d|\d` for `%M` and `%S`, a
whitespace run for a literal blank), matches the alternatives leftmost
first with backtracking, requires the whole string to be consumed, and
finally constructs a `datetime`, which checks `1 <= year` and the day
against the month length.  The match is reproduced below by an ordered
depth-first search over the same alternatives. -/

/-- Format directives of the two format strings used by the source. -/
inductive FTok where
  | year
  | month
  | day
  | hour
  | minute
  | second
  | blank
deriving DecidableEq

/-- Decimal value of a digit string (only applied to all-digit chunks). -/
def digitsToNat (cs : List Char) : Nat :=
  cs.foldl (fun a c => a * 10 + (c.toNat - 48)) 0

/-- Ordered alternatives of one directive: chunk length together with the
acceptance test on the chunk value, in CPython alternation order. -/
def tokAlts : FTok → List (Nat × (Nat → Bool))
  | .year => [(4, fun _ => true)]
  | .month => [(2, fun v => decide (1 ≤ v) && decide (v ≤ 12)),
               (1, fun v => decide (1 ≤ v) && decide (v ≤ 9))]
  | .day => [(2, fun v => decide (1 ≤ v) && decide (v ≤ 31)),
             (1, fun v => decide (1 ≤ v) && decide (v ≤ 9))]
  | .hour => [(2, fun v => decide (v ≤ 23)), (1, fun _ => true)]
  | .minute => [(2, fun v => decide (v ≤ 59)), (1, fun _ => true)]
  | .second => [(2, fun v => decide (v ≤ 59)), (1, fun _ => true)]
  | .blank => []

/-- One alternative of a directive applied at the current position:
consume `al.1` digit characters whose value passes `al.2`. -/
def takeChunk (al : Nat × (Nat → Bool)) (cs : List Char) : Option (Nat × List Char) :=
  let chunk := cs.take al.1
  if chunk.length == al.1 && chunk.all Char.isDigit && al.2 (digitsToNat chunk) then
    some (digitsToNat chunk, cs.drop al.1)
  else
    none

/-- Ordered backtracking match of a directive list against the input,
requiring full consumption; returns the directive values in order
(a literal blank contributes no value). -/
def matchToks : List FTok → List Char → Option (List Nat)
  | [], [] => some []
  | [], _ :: _ => none
  | .blank :: ts, cs =>
    let ws := cs.takeWhile Char.isWhitespace
    if ws.isEmpty then none else matchToks ts (cs.drop ws.length)
  | t :: ts, cs =>
    (tokAlts t).findSome? fun al =>
      match takeChunk al cs with
      | none => none
      | some (v, rest) => (matchToks ts rest).map (fun vs => v :: vs)

/-- Day-of-month and year validation done by the `datetime` constructor
(the directive regexes already enforce the other field ranges). -/
def calendarOk (y mo d : Nat) : Bool :=
  decide (1 ≤ y) && decide (d ≤ daysInMonth y mo)

/-- `datetime.strptime(s, "%Y%m%d %H%M%S")` followed by
`.replace(tzinfo=timezone.utc)` (legacy, src/models.py line 120),
returning the represented instant. -/
def strptimeSpace (cs : List Char) : Option Nat :=
  match matchToks [.year, .month, .day, .blank, .hour, .minute, .second] cs with
  | some [y, mo, d, h, mi, s] =>
    if calendarOk y mo d then some (toTimestamp y mo d h mi s) else none
  | _ => none

/-- `datetime.strptime(s, "%Y%m%d%H%M%S")` followed by
`.replace(tzinfo=timezone.utc)` (server,
src/apps/prune_server/models.py line 123). -/
def strptimeCompact (cs : List Char) : Option Nat :=
  match matchToks [.year, .month, .day, .hour, .minute, .second] cs with
  | some [y, mo, d, h, mi, s] =>
    if calendarOk y mo d then some (toTimestamp y mo d h mi s) else none
  | _ => none

/-! ## Python `str.split` -/

/-- Prepend a character to the first chunk of a split result. -/
def consHead (x : Char) : List (List Char) → List (List Char)
  | [] => [[x]]
  | h :: t => (x :: h) :: t

/-- Python `s.split(sep)` for a one-character separator `c`:
`"a__b".split("_") == ["a", "", "b"]`, `"".split("_") == [""]`. -/
def charSplit (c : Char) : List Char → List (List Char)
  | [] => [[]]
  | x :: rest => if x = c then [] :: charSplit c rest else consHead x (charSplit c rest)

/-- Python `s.split("_p")`: split at the leftmost non-overlapping
occurrences of the two-character separator. -/
def splitUP : List Char → List (List Char)
  | [] => [[]]
  | [x] => [[x]]
  | x :: y :: rest =>
    if x = '_' ∧ y = 'p' then [] :: splitUP rest
    else consHead x (splitUP (y :: rest))

/-- Whether `"_p"` occurs as a substring. -/
def hasUP : List Char → Bool
  | [] => false
  | [_] => false
  | x :: y :: rest => (x == '_' && y == 'p') || hasUP (y :: rest)

/-! ## Partition-name decoding -/

/-- Legacy timestamp extraction
(src/models.py lines 117-120): take `partition_name.split("_")[-2]`,
slice characters 1-8 of it, take `partition_name.split("_")[-1]`, and
parse `f"{date} {time}"` with `strptime("%Y%m%d %H%M%S")`, branding the
result UTC.  `none` stands for an uncaught `IndexError`/`ValueError`
(the legacy method wraps none of this in try/except). -/
def legacyDecode (name : List Char) : Option Nat :=
  match (charSplit '_' name).reverse with
  | tstr :: dstr :: _ =>
    let partition_date := (dstr.drop 1).take 8
    strptimeSpace (partition_date ++ ' ' :: tstr)
  | _ => none

/-- Server timestamp extraction
(src/apps/prune_server/models.py lines 116-126): take
`partition_name.split("_p")[1].split("_")[0]` as the date part and
`partition_name.split("_")[-1]` as the time part, concatenate and parse
with `strptime("%Y%m%d%H%M%S")`, branding the result UTC.  `none` stands
for the `IndexError`/`ValueError` caught by the surrounding
`try`/`except` (the caller skips the partition). -/
def serverDecode (name : List Char) : Option Nat :=
  match splitUP name with
  | _ :: second :: _ =>
    let date_str_part := (charSplit '_' second).headD []
    let time_str_part := (charSplit '_' name).getLastD []
    strptimeCompact (date_str_part ++ time_str_part)
  | _ => none

/-! ## The partition-name regex

Both implementations build `pattern = f"^{self.table_name}_p\d{{8}}_\d{{6}}$"`
and test `re.match(pattern, partition_name)`.  The table name is spliced
into the pattern unescaped, so its characters are read as regex syntax.
The fragment of Python regex syntax reachable here is modelled: an
escape (`\d` is the digit class, any other escaped character is itself),
the `.` wildcard, and every other character matching itself; the
repetition braces occur only in the fixed suffix, which is compiled
directly.  Since every atom consumes exactly one character, matching is
pointwise.  The pattern is anchored by `^...$`, modelled as a full-string
match; Python's `$` also tolerates one trailing newline, which is not
represented — the theorems below that quantify over names assume the
name contains no newline. -/

/-- A single-character regex atom. -/
inductive RAtom where
  | lit (c : Char)
  | digit
  | anyChar
deriving DecidableEq

/-- Whether an atom matches a character. -/
def atomMatches : RAtom → Char → Bool
  | .lit c, x => x == c
  | .digit, x => x.isDigit
  | .anyChar, _ => true

/-- Compile the spliced table name: `\d` and other escapes, `.`, and
literal characters (a lone trailing backslash, a `re.error` in Python,
is unreachable in the statements below and kept literal). -/
def parseRx : List Char → List RAtom
  | [] => []
  | x :: rest =>
    if x = '\\' then
      match rest with
      | [] => [.lit '\\']
      | c :: rest2 => (if c = 'd' then .digit else .lit c) :: parseRx rest2
    else if x = '.' then .anyChar :: parseRx rest
    else .lit x :: parseRx rest

/-- Atom list of `f"^{tbl}_p\d{{8}}_\d{{6}}$"`. -/
def compileTablePattern (tbl : List Char) : List RAtom :=
  parseRx tbl ++ [.lit '_', .lit 'p'] ++ List.replicate 8 .digit ++
    [.lit '_'] ++ List.replicate 6 .digit

/-- Pointwise match of a fixed-arity atom list against a string. -/
def matchesAtoms : List RAtom → List Char → Bool
  | [], [] => true
  | [], _ :: _ => false
  | _ :: _, [] => false
  | a :: as, c :: cs => atomMatches a c && matchesAtoms as cs

/-- `re.match(f"^{tbl}_p\d{{8}}_\d{{6}}$", name)` as a boolean. -/
def reMatchPattern (tbl name : List Char) : Bool :=
  matchesAtoms (compileTablePattern tbl) name

/-- Characters the regex engine treats as themselves: ASCII letters,
digits and the underscore. -/
def isWordChar (c : Char) : Bool :=
  c.isAlphanum || c == '_'

/-! ## The server pruning pass -/

/-- Statements and prints of (part of) one pass. -/
structure PassOut where
  effects : List Effect
  notes : List Note
deriving DecidableEq

/-- Concatenation of pass output. -/
def PassOut.app (a b : PassOut) : PassOut :=
  ⟨a.effects ++ b.effects, a.notes ++ b.notes⟩

/-- One iteration of the server partition loop
(src/apps/prune_server/models.py lines 106-144): regex filter, guarded
date/time parse, cutoff computed as `datetime.now(timezone.utc)` minus
the retention delta, strict `<` comparison, and a DROP whose exception
is caught so the loop continues. -/
def serverPartitionStep (tbl schema : String) (retention_seconds : Int) (now : Int)
    (db : Db) (name : String) : PassOut :=
  if !reMatchPattern tbl.data name.data then
    ⟨[], [.skippedFormat name]⟩
  else
    match serverDecode name.data with
    | none => ⟨[], [.skippedParse name]⟩
    | some partition_datetime =>
      let cutoff_datetime : Int := now - retention_seconds
      if (partition_datetime : Int) < cutoff_datetime then
        ⟨[.dropTable schema name],
         [if db.dropFails name then .dropError name else .droppedMsg name]⟩
      else
        ⟨[], [.retained name]⟩

/-- The server partition loop over the discovered child partitions. -/
def serverLoop (tbl schema : String) (retention_seconds : Int) (now : Int)
    (db : Db) : List String → PassOut
  | [] => ⟨[], []⟩
  | name :: rest =>
    (serverPartitionStep tbl schema retention_seconds now db name).app
      (serverLoop tbl schema retention_seconds now db rest)

/-- Server `PostgresTableModel._drop_table_partitions`
(src/apps/prune_server/models.py lines 77-146): query the child
partitions (by relname and schema), return early when no time-retention
policy is present (before the commit), otherwise run the loop and
commit.  The parent table itself is never dropped. -/
def serverDropTablePartitions (db : Db) (m : PostgresTableModel) (now : Int) : PassOut :=
  let sel := Effect.selectPartitionsQ m.table_name m.schema
  let children := db.childPartitions m.table_name m.schema
  match m.retention_policy with
  | none => ⟨[sel], [.skipNoPolicy]⟩
  | some p =>
    match p.timeretention with
    | none => ⟨[sel], [.skipNoPolicy]⟩
    | some tr =>
      let body := serverLoop m.table_name m.schema tr.retention_seconds now db children
      ⟨sel :: body.effects ++ [.commit], body.notes⟩

/-- Server `PostgresTableModel._delete_records_by_condition`
(src/apps/prune_server/models.py lines 148-193): the body is a
commented-out placeholder; it only prints that condition-based deletion
is not implemented and issues no statement. -/
def serverDeleteRecordsByCondition : PassOut :=
  ⟨[], [.deleteNotImplemented]⟩

/-- Server `PostgresTableModel.prune`
(src/apps/prune_server/models.py lines 68-75): dispatch on the truthy
policy variant. -/
def serverPrune (db : Db) (m : PostgresTableModel) (now : Int) : PassOut :=
  match m.retention_policy with
  | none => ⟨[], []⟩
  | some p =>
    if timeretentionTruthy p then serverDropTablePartitions db m now
    else if conditionsTruthy p then serverDeleteRecordsByCondition
    else ⟨[], []⟩

/-! ## The legacy pruning pass -/

/-- Statements, prints, and whether an uncaught exception escaped the
legacy method. -/
structure LegacyOut where
  effects : List Effect
  notes : List Note
  raised : Bool
deriving DecidableEq

/-- The legacy partition loop (src/models.py lines 102-136).  The cutoff
is `datetime.now() - timedelta(seconds=rs)` — a naive local wall-clock
reading — re-branded `timezone(timedelta(hours=-5))`; comparing the
UTC-branded partition datetime against it compares instants, i.e.
`t < nowLocal - rs + 18000` on the common timeline (subtracting the
minus-five-hour offset adds 18000 seconds).  Neither the `strptime`
call nor the DROP is guarded by try/except, so a parse failure or a
failed DROP raises out of the loop and no later partition is
processed. -/
def legacyLoop (tbl schema : String) (retention_seconds : Int) (nowLocal : Int)
    (db : Db) : List String → LegacyOut
  | [] => ⟨[], [], false⟩
  | name :: rest =>
    if !reMatchPattern tbl.data name.data then
      let t := legacyLoop tbl schema retention_seconds nowLocal db rest
      ⟨t.effects, .skippedFormat name :: t.notes, t.raised⟩
    else
      match legacyDecode name.data with
      | none => ⟨[], [], true⟩
      | some partition_datetime =>
        let retention_date : Int := nowLocal - retention_seconds
        if (partition_datetime : Int) < retention_date + 18000 then
          if db.dropFails name then
            ⟨[.dropTable schema name], [], true⟩
          else
            let t := legacyLoop tbl schema retention_seconds nowLocal db rest
            ⟨.dropTable schema name :: t.effects, .droppedMsg name :: t.notes, t.raised⟩
        else
          let t := legacyLoop tbl schema retention_seconds nowLocal db rest
          ⟨t.effects, .retained name :: t.notes, t.raised⟩

/-- Legacy `PostgresTableModel._drop_table` (src/models.py lines 81-144):
query the child partitions (by parent relname only), run the loop,
commit, and then — lines 142-144 — `DROP TABLE IF EXISTS
{schema}.{table_name}`: the parent table itself, followed by a second
commit.  An exception anywhere aborts the rest of the method.  The
method reads `self.retention_policy.timeretention.retention_seconds`
with no guard (line 123); `prune` only calls it when both are truthy,
so the missing-policy branches (an `AttributeError` in Python) are
modelled coarsely as an immediate escape. -/
def legacyDropTable (db : Db) (m : PostgresTableModel) (nowLocal : Int) : LegacyOut :=
  let sel := Effect.selectPartitions m.table_name
  let children := db.childPartitionsByName m.table_name
  match m.retention_policy with
  | none => ⟨[sel], [], true⟩
  | some p =>
    match p.timeretention with
    | none => ⟨[sel], [], true⟩
    | some tr =>
      let body := legacyLoop m.table_name m.schema tr.retention_seconds nowLocal db children
      if body.raised then
        ⟨sel :: body.effects, body.notes, true⟩
      else if db.dropFails m.table_name then
        ⟨sel :: body.effects ++ [.commit, .dropTable m.schema m.table_name], body.notes, true⟩
      else
        ⟨sel :: body.effects ++ [.commit, .dropTable m.schema m.table_name, .commit],
         body.notes, false⟩

/-! ## The batch coordinator (src/apps/prune_server/main.py) -/

/-- `ApiTableConfig` after FastAPI parsing: the `retention_policy` field
of the request schema is mandatory. -/
structure ApiTableConfig where
  table_name : String
  schema_name : String
  retention_policy : DataRetentionPolicy
deriving DecidableEq

/-- A `PruneResponseDetail` row of the response. -/
structure PruneResponseDetail where
  table_name : String
  schema_name : String
  status : String
  message : String
deriving DecidableEq

/-- Conversion of the API policy to the domain policy
(src/apps/prune_server/main.py lines 112-133): each variant is copied
only when truthy, so an empty `conditions` list becomes `None`. -/
def domainPolicyOf (p : DataRetentionPolicy) : DataRetentionPolicy :=
  { timeretention := p.timeretention
    conditions :=
      match p.conditions with
      | none => none
      | some l => if l.isEmpty then none else some l }

/-- The domain table model built for one request entry
(src/apps/prune_server/main.py lines 135-139); a policy object is always
constructed, so `retention_policy` is always truthy downstream. -/
def tableModelOf (cfg : ApiTableConfig) : PostgresTableModel :=
  { table_name := cfg.table_name
    schema := cfg.schema_name
    retention_policy := some (domainPolicyOf cfg.retention_policy) }

/-- The `try:` body of the per-table processing
(src/apps/prune_server/main.py lines 141-173): validate (existence query
plus policy shape — a policy `ValueError` escapes to the handler), emit
an error detail when validation returns false, otherwise prune and emit
a success detail; the skipped branch is kept for fidelity although the
policy is always present.  The second component collects the statements
and prints produced along the way. -/
def processTableInner (db : Db) (now : Int) (cfg : ApiTableConfig) :
    Except String PruneResponseDetail × PassOut :=
  let m := tableModelOf cfg
  match serverValidate db m with
  | (.error e, veffects) => (.error e, ⟨veffects, []⟩)
  | (.ok false, veffects) =>
    (.ok { table_name := cfg.table_name, schema_name := cfg.schema_name,
           status := "error",
           message := "Validation failed for table " ++ cfg.schema_name ++ "." ++ cfg.table_name },
     ⟨veffects, []⟩)
  | (.ok true, veffects) =>
    match m.retention_policy with
    | some _ =>
      let p := serverPrune db m now
      (.ok { table_name := cfg.table_name, schema_name := cfg.schema_name,
             status := "success",
             message := "Successfully processed table " ++ cfg.schema_name ++ "." ++ cfg.table_name },
       ⟨veffects ++ p.effects, p.notes⟩)
    | none =>
      (.ok { table_name := cfg.table_name, schema_name := cfg.schema_name,
             status := "skipped",
             message := "No retention policy provided for " ++ cfg.schema_name ++ "." ++ cfg.table_name ++ ". Nothing to prune." },
       ⟨veffects, []⟩)

/-- One table's outcome including the `except` handlers
(src/apps/prune_server/main.py lines 175-190): any exception raised
while processing the table becomes an error detail for that table and
the loop moves on. -/
def tableOutcome (db : Db) (now : Int) (cfg : ApiTableConfig) : PruneResponseDetail :=
  match (processTableInner db now cfg).1 with
  | .ok r => r
  | .error e =>
    { table_name := cfg.table_name, schema_name := cfg.schema_name,
      status := "error", message := e }

/-- The accumulating `for`-loop of `prune_tables`
(src/apps/prune_server/main.py lines 109-192): `results` starts empty
and one detail is appended per table config. -/
def pruneTablesAux (db : Db) (now : Int) (results : List PruneResponseDetail) :
    List ApiTableConfig → List PruneResponseDetail
  | [] => results
  | cfg :: rest => pruneTablesAux db now (results ++ [tableOutcome db now cfg]) rest

/-- `prune_tables` applied to an already-parsed request batch. -/
def pruneTables (db : Db) (now : Int) (cfgs : List ApiTableConfig) : List PruneResponseDetail :=
  pruneTablesAux db now [] cfgs

/-! ## Validity predicate and concrete fixtures -/

/-- The date/time combinations accepted by
`strptime("%Y%m%d[ ]%H%M%S")` followed by the `datetime` constructor on
an 8-digit date and 6-digit time: exactly the valid proleptic-Gregorian
calendar datetimes with a four-digit year. -/
def validDT (y mo d h mi s : Nat) : Prop :=
  1 ≤ y ∧ 1 ≤ mo ∧ mo ≤ 12 ∧ 1 ≤ d ∧ d ≤ daysInMonth y mo ∧
    h ≤ 23 ∧ mi ≤ 59 ∧ s ≤ 59

instance (y mo d h mi s : Nat) : Decidable (validDT y mo d h mi s) :=
  inferInstanceAs (Decidable (1 ≤ y ∧ 1 ≤ mo ∧ mo ≤ 12 ∧ 1 ≤ d ∧
    d ≤ daysInMonth y mo ∧ h ≤ 23 ∧ mi ≤ 59 ∧ s ≤ 59))

/-- A reference wall-clock reading used by the concrete scenarios. -/
def nowRef : Int := (toTimestamp 2025 1 1 0 0 0 : Nat)

/-- The timestamp encoded by partition suffix `p20230101_000000`. -/
def ts2023 : Nat := toTimestamp 2023 1 1 0 0 0

/-- The time-retention scenario policy of the repository
(`retention_seconds = 15`, see src/prune_postgres.py lines 23-29). -/
def policy15 : DataRetentionPolicy :=
  ⟨some ⟨"mtime", 15⟩, none⟩

/-- The scenario table model: `public.test_table1` with `policy15`. -/
def mBasic : PostgresTableModel :=
  ⟨"test_table1", "public", some policy15⟩

/-- Catalog with `public.test_table1` present, holding one old and one
future child partition; every DROP succeeds. -/
def dbBasic : Db :=
  { tableExists := fun _ _ => true
    childPartitionsByName := fun t =>
      if t = "test_table1" then
        ["test_table1_p20230101_000000", "test_table1_p99990101_000000"]
      else []
    childPartitions := fun t _ =>
      if t = "test_table1" then
        ["test_table1_p20230101_000000", "test_table1_p99990101_000000"]
      else []
    dropFails := fun _ => false }

/-- Catalog in which no table exists at all. -/
def dbAbsent : Db :=
  { tableExists := fun _ _ => false
    childPartitionsByName := fun _ => []
    childPartitions := fun _ _ => []
    dropFails := fun _ => false }

/-- Catalog whose only child partition of `test_table1` carries the
calendar-invalid digits `20230230` (February 30th). -/
def dbBadCal : Db :=
  { tableExists := fun _ _ => true
    childPartitionsByName := fun t =>
      if t = "test_table1" then ["test_table1_p20230230_000000"] else []
    childPartitions := fun t _ =>
      if t = "test_table1" then ["test_table1_p20230230_000000"] else []
    dropFails := fun _ => false }

/-- Catalog with two old child partitions of `test_table1` where dropping
the first one fails. -/
def dbDropFail : Db :=
  { tableExists := fun _ _ => true
    childPartitionsByName := fun t =>
      if t = "test_table1" then
        ["test_table1_p20230101_000000", "test_table1_p20230102_000000"]
      else []
    childPartitions := fun t _ =>
      if t = "test_table1" then
        ["test_table1_p20230101_000000", "test_table1_p20230102_000000"]
      else []
    dropFails := fun n => n = "test_table1_p20230101_000000" }

/-- A request entry whose policy has both variants set (shape-invalid). -/
def cfgBoth : ApiTableConfig :=
  ⟨"test_table1", "public", ⟨some ⟨"mtime", 15⟩, some [⟨"status", "=", "old"⟩]⟩⟩

/-- A well-formed time-retention request entry for `public.test_table1`. -/
def cfgBasic : ApiTableConfig :=
  ⟨"test_table1", "public", policy15⟩

/-- A well-formed time-retention request entry for a second table. -/
def cfgOther : ApiTableConfig :=
  ⟨"other_table", "public", policy15⟩

/-! ## Character facts -/

/-- A digit character is not an underscore. -/
theorem isDigit_ne_underscore (c : Char) (h : c.isDigit = true) : c ≠ '_' := by
  rintro rfl
  exact absurd h (by decide)

/-- A digit character is not the letter `p`. -/
theorem isDigit_ne_p (c : Char) (h : c.isDigit = true) : c ≠ 'p' := by
  rintro rfl
  exact absurd h (by decide)

/-- A digit character is not whitespace. -/
theorem isDigit_not_whitespace (c : Char) (h : c.isDigit = true) :
    c.isWhitespace = false := by
  rcases hws : c.isWhitespace
  · rfl
  · exfalso
    have hw := hws
    simp only [Char.isWhitespace, Bool.or_eq_true, decide_eq_true_eq] at hw
    rcases hw with ((h1 | h1) | h1) | h1 <;> subst h1 <;> exact absurd h (by decide)

/-! ## Split lemmas -/

/-- `consHead` never yields the empty list of chunks. -/
theorem consHead_ne_nil (x : Char) (l : List (List Char)) : consHead x l ≠ [] := by
  cases l <;> simp [consHead]

/-- `charSplit` never yields the empty list of chunks. -/
theorem charSplit_ne_nil (c : Char) (s : List Char) : charSplit c s ≠ [] := by
  induction s with
  | nil => simp [charSplit]
  | cons x rest ih =>
    rw [charSplit]
    split
    · simp
    · exact consHead_ne_nil x _

/-- `consHead` distributes over an append with a non-empty left part. -/
theorem consHead_append (x : Char) (a b : List (List Char)) (h : a ≠ []) :
    consHead x (a ++ b) = consHead x a ++ b := by
  cases a with
  | nil => exact absurd rfl h
  | cons hd tl => simp [consHead]

/-- Splitting at a separator occurrence splits the two sides
independently. -/
theorem charSplit_append_sep (c : Char) (xs ys : List Char) :
    charSplit c (xs ++ c :: ys) = charSplit c xs ++ charSplit c ys := by
  induction xs with
  | nil => simp [charSplit]
  | cons x rest ih =>
    by_cases hx : x = c
    · subst hx
      simp [charSplit, ih]
    · simp [charSplit, hx, ih, consHead_append x _ _ (charSplit_ne_nil c rest)]

/-- A string without the separator is one chunk. -/
theorem charSplit_no_sep (c : Char) (s : List Char) (h : ∀ x ∈ s, x ≠ c) :
    charSplit c s = [s] := by
  induction s with
  | nil => rfl
  | cons x rest ih =>
    have hx : x ≠ c := h x (List.mem_cons_self x rest)
    rw [charSplit, if_neg hx, ih (fun y hy => h y (List.mem_cons_of_mem x hy))]
    rfl

/-- A string without an occurrence of `"_p"` is one `splitUP` chunk. -/
theorem splitUP_no_occ (s : List Char) (h : hasUP s = false) : splitUP s = [s] := by
  induction s with
  | nil => rfl
  | cons x rest ih =>
    cases rest with
    | nil => rfl
    | cons y r =>
      rw [hasUP] at h
      rw [splitUP]
      rw [Bool.or_eq_false_iff] at h
      have hxy : ¬(x = '_' ∧ y = 'p') := by
        rcases h with ⟨h1, _⟩
        rw [Bool.and_eq_false_iff] at h1
        rintro ⟨rfl, rfl⟩
        rcases h1 with h1 | h1 <;> simp at h1
      rw [if_neg hxy, ih h.2]
      rfl

/-- `splitUP` at an occurrence of `"_p"` with an occurrence-free left
side. -/
theorem splitUP_append_sep (xs ys : List Char) (h : hasUP xs = false) :
    splitUP (xs ++ '_' :: 'p' :: ys) = xs :: splitUP ys := by
  induction xs with
  | nil => simp [splitUP]
  | cons x rest ih =>
    cases rest with
    | nil =>
      have hx : ¬(x = '_' ∧ '_' = 'p') := by rintro ⟨-, h2⟩; simp at h2
      rw [List.cons_append, List.nil_append, splitUP, if_neg hx,
        splitUP, if_pos ⟨rfl, rfl⟩]
      rfl
    | cons y r =>
      rw [hasUP] at h
      rw [Bool.or_eq_false_iff] at h
      have hxy : ¬(x = '_' ∧ y = 'p') := by
        rcases h with ⟨h1, _⟩
        rw [Bool.and_eq_false_iff] at h1
        rintro ⟨rfl, rfl⟩
        rcases h1 with h1 | h1 <;> simp at h1
      have hshape : (x :: y :: r) ++ '_' :: 'p' :: ys
          = x :: y :: (r ++ '_' :: 'p' :: ys) := by simp
      rw [hshape, splitUP, if_neg hxy]
      have hshape2 : y :: (r ++ '_' :: 'p' :: ys) = (y :: r) ++ '_' :: 'p' :: ys := by
        simp
      rw [hshape2, ih h.2]
      rfl

/-! ## Evaluation of the `strptime` model on well-formed inputs -/

/-- A two-digit chunk whose value passes the test is consumed. -/
theorem takeChunk_two (ok : Nat → Bool) (a b : Char) (cs : List Char)
    (ha : a.isDigit = true) (hb : b.isDigit = true)
    (hok : ok (digitsToNat [a, b]) = true) :
    takeChunk (2, ok) (a :: b :: cs) = some (digitsToNat [a, b], cs) := by
  simp [takeChunk, ha, hb, hok]

/-- A four-digit chunk whose value passes the test is consumed. -/
theorem takeChunk_four (ok : Nat → Bool) (a b c d : Char) (cs : List Char)
    (ha : a.isDigit = true) (hb : b.isDigit = true)
    (hc : c.isDigit = true) (hd : d.isDigit = true)
    (hok : ok (digitsToNat [a, b, c, d]) = true) :
    takeChunk (4, ok) (a :: b :: c :: d :: cs) = some (digitsToNat [a, b, c, d], cs) := by
  simp [takeChunk, ha, hb, hc, hd, hok]

/-- Unfolding of `matchToks` at a value directive. -/
theorem matchToks_cons_year (ts : List FTok) (cs : List Char) :
    matchToks (.year :: ts) cs =
      (tokAlts .year).findSome? fun al =>
        match takeChunk al cs with
        | none => none
        | some (v, rest) => (matchToks ts rest).map (fun vs => v :: vs) := rfl

/-- Unfolding of `matchToks` at a value directive. -/
theorem matchToks_cons_month (ts : List FTok) (cs : List Char) :
    matchToks (.month :: ts) cs =
      (tokAlts .month).findSome? fun al =>
        match takeChunk al cs with
        | none => none
        | some (v, rest) => (matchToks ts rest).map (fun vs => v :: vs) := rfl

/-- Unfolding of `matchToks` at a value directive. -/
theorem matchToks_cons_day (ts : List FTok) (cs : List Char) :
    matchToks (.day :: ts) cs =
      (tokAlts .day).findSome? fun al =>
        match takeChunk al cs with
        | none => none
        | some (v, rest) => (matchToks ts rest).map (fun vs => v :: vs) := rfl

/-- Unfolding of `matchToks` at a value directive. -/
theorem matchToks_cons_hour (ts : List FTok) (cs : List Char) :
    matchToks (.hour :: ts) cs =
      (tokAlts .hour).findSome? fun al =>
        match takeChunk al cs with
        | none => none
        | some (v, rest) => (matchToks ts rest).map (fun vs => v :: vs) := rfl

/-- Unfolding of `matchToks` at a value directive. -/
theorem matchToks_cons_minute (ts : List FTok) (cs : List Char) :
    matchToks (.minute :: ts) cs =
      (tokAlts .minute).findSome? fun al =>
        match takeChunk al cs with
        | none => none
        | some (v, rest) => (matchToks ts rest).map (fun vs => v :: vs) := rfl

/-- Unfolding of `matchToks` at a value directive. -/
theorem matchToks_cons_second (ts : List FTok) (cs : List Char) :
    matchToks (.second :: ts) cs =
      (tokAlts .second).findSome? fun al =>
        match takeChunk al cs with
        | none => none
        | some (v, rest) => (matchToks ts rest).map (fun vs => v :: vs) := rfl

/-- Unfolding of `matchToks` at the literal blank. -/
theorem matchToks_cons_blank (ts : List FTok) (cs : List Char) :
    matchToks (.blank :: ts) cs =
      (if (cs.takeWhile Char.isWhitespace).isEmpty then none
       else matchToks ts (cs.drop (cs.takeWhile Char.isWhitespace).length)) := rfl

/-- Successful `%Y` step given that the rest of the match succeeds. -/
theorem matchToks_year_step (ts : List FTok) (a b c d : Char) (cs : List Char)
    (vs : List Nat) (ha : a.isDigit = true) (hb : b.isDigit = true)
    (hc : c.isDigit = true) (hd : d.isDigit = true)
    (hrest : matchToks ts cs = some vs) :
    matchToks (.year :: ts) (a :: b :: c :: d :: cs)
      = some (digitsToNat [a, b, c, d] :: vs) := by
  rw [matchToks_cons_year, tokAlts, List.findSome?_cons,
    takeChunk_four _ _ _ _ _ _ ha hb hc hd rfl]
  simp [hrest]

/-- Successful `%m` step given a valid month value and a successful rest. -/
theorem matchToks_month_step (ts : List FTok) (a b : Char) (cs : List Char)
    (vs : List Nat) (ha : a.isDigit = true) (hb : b.isDigit = true)
    (h1 : 1 ≤ digitsToNat [a, b]) (h2 : digitsToNat [a, b] ≤ 12)
    (hrest : matchToks ts cs = some vs) :
    matchToks (.month :: ts) (a :: b :: cs) = some (digitsToNat [a, b] :: vs) := by
  rw [matchToks_cons_month, tokAlts, List.findSome?_cons,
    takeChunk_two _ _ _ _ ha hb (by simp [h1, h2])]
  simp [hrest]

/-- Successful `%d` step given a valid day value and a successful rest. -/
theorem matchToks_day_step (ts : List FTok) (a b : Char) (cs : List Char)
    (vs : List Nat) (ha : a.isDigit = true) (hb : b.isDigit = true)
    (h1 : 1 ≤ digitsToNat [a, b]) (h2 : digitsToNat [a, b] ≤ 31)
    (hrest : matchToks ts cs = some vs) :
    matchToks (.day :: ts) (a :: b :: cs) = some (digitsToNat [a, b] :: vs) := by
  rw [matchToks_cons_day, tokAlts, List.findSome?_cons,
    takeChunk_two _ _ _ _ ha hb (by simp [h1, h2])]
  simp [hrest]

/-- Successful `%H` step given a valid hour value and a successful rest. -/
theorem matchToks_hour_step (ts : List FTok) (a b : Char) (cs : List Char)
    (vs : List Nat) (ha : a.isDigit = true) (hb : b.isDigit = true)
    (h1 : digitsToNat [a, b] ≤ 23)
    (hrest : matchToks ts cs = some vs) :
    matchToks (.hour :: ts) (a :: b :: cs) = some (digitsToNat [a, b] :: vs) := by
  rw [matchToks_cons_hour, tokAlts, List.findSome?_cons,
    takeChunk_two _ _ _ _ ha hb (by simp [h1])]
  simp [hrest]

/-- Successful `%M` step given a valid minute value and a successful rest. -/
theorem matchToks_minute_step (ts : List FTok) (a b : Char) (cs : List Char)
    (vs : List Nat) (ha : a.isDigit = true) (hb : b.isDigit = true)
    (h1 : digitsToNat [a, b] ≤ 59)
    (hrest : matchToks ts cs = some vs) :
    matchToks (.minute :: ts) (a :: b :: cs) = some (digitsToNat [a, b] :: vs) := by
  rw [matchToks_cons_minute, tokAlts, List.findSome?_cons,
    takeChunk_two _ _ _ _ ha hb (by simp [h1])]
  simp [hrest]

/-- Successful `%S` step given a valid second value and a successful rest. -/
theorem matchToks_second_step (ts : List FTok) (a b : Char) (cs : List Char)
    (vs : List Nat) (ha : a.isDigit = true) (hb : b.isDigit = true)
    (h1 : digitsToNat [a, b] ≤ 59)
    (hrest : matchToks ts cs = some vs) :
    matchToks (.second :: ts) (a :: b :: cs) = some (digitsToNat [a, b] :: vs) := by
  rw [matchToks_cons_second, tokAlts, List.findSome?_cons,
    takeChunk_two _ _ _ _ ha hb (by simp [h1])]
  simp [hrest]

/-- Successful literal-blank step: one space is consumed when the next
character is a digit. -/
theorem matchToks_blank_step (ts : List FTok) (a : Char) (cs : List Char)
    (ha : a.isDigit = true) :
    matchToks (.blank :: ts) (' ' :: a :: cs) = matchToks ts (a :: cs) := by
  rw [matchToks_cons_blank, List.takeWhile_cons, List.takeWhile_cons]
  simp [isDigit_not_whitespace a ha]

/-- On a fully valid compact digit string, the directive match of
`"%Y%m%d%H%M%S"` succeeds with the positional field values (the first
alternative of every directive applies, so no backtracking occurs). -/
theorem matchToks_valid_compact
    (y1 y2 y3 y4 mo1 mo2 dy1 dy2 h1 h2 mi1 mi2 s1 s2 : Char)
    (hdig : ∀ c ∈ [y1, y2, y3, y4, mo1, mo2, dy1, dy2, h1, h2, mi1, mi2, s1, s2],
      c.isDigit = true)
    (hmo1 : 1 ≤ digitsToNat [mo1, mo2]) (hmo2 : digitsToNat [mo1, mo2] ≤ 12)
    (hd1 : 1 ≤ digitsToNat [dy1, dy2]) (hd2 : digitsToNat [dy1, dy2] ≤ 31)
    (hh : digitsToNat [h1, h2] ≤ 23)
    (hmi : digitsToNat [mi1, mi2] ≤ 59)
    (hs : digitsToNat [s1, s2] ≤ 59) :
    matchToks [.year, .month, .day, .hour, .minute, .second]
      [y1, y2, y3, y4, mo1, mo2, dy1, dy2, h1, h2, mi1, mi2, s1, s2]
    = some [digitsToNat [y1, y2, y3, y4], digitsToNat [mo1, mo2], digitsToNat [dy1, dy2],
        digitsToNat [h1, h2], digitsToNat [mi1, mi2], digitsToNat [s1, s2]] := by
  simp only [List.mem_cons, forall_eq_or_imp, List.not_mem_nil, false_implies,
    implies_true, and_true] at hdig
  obtain ⟨hy1, hy2, hy3, hy4, hm1, hm2, hdy1, hdy2, hh1, hh2, hmi1, hmi2, hs1, hs2⟩ := hdig
  exact matchToks_year_step _ _ _ _ _ _ _ hy1 hy2 hy3 hy4
    (matchToks_month_step _ _ _ _ _ hm1 hm2 hmo1 hmo2
      (matchToks_day_step _ _ _ _ _ hdy1 hdy2 hd1 hd2
        (matchToks_hour_step _ _ _ _ _ hh1 hh2 hh
          (matchToks_minute_step _ _ _ _ _ hmi1 hmi2 hmi
            (matchToks_second_step _ _ _ _ _ hs1 hs2 hs rfl)))))

/-- On a fully valid `"date time"` digit string, the directive match of
`"%Y%m%d %H%M%S"` succeeds with the positional field values. -/
theorem matchToks_valid_space
    (y1 y2 y3 y4 mo1 mo2 dy1 dy2 h1 h2 mi1 mi2 s1 s2 : Char)
    (hdig : ∀ c ∈ [y1, y2, y3, y4, mo1, mo2, dy1, dy2, h1, h2, mi1, mi2, s1, s2],
      c.isDigit = true)
    (hmo1 : 1 ≤ digitsToNat [mo1, mo2]) (hmo2 : digitsToNat [mo1, mo2] ≤ 12)
    (hd1 : 1 ≤ digitsToNat [dy1, dy2]) (hd2 : digitsToNat [dy1, dy2] ≤ 31)
    (hh : digitsToNat [h1, h2] ≤ 23)
    (hmi : digitsToNat [mi1, mi2] ≤ 59)
    (hs : digitsToNat [s1, s2] ≤ 59) :
    matchToks [.year, .month, .day, .blank, .hour, .minute, .second]
      [y1, y2, y3, y4, mo1, mo2, dy1, dy2, ' ', h1, h2, mi1, mi2, s1, s2]
    = some [digitsToNat [y1, y2, y3, y4], digitsToNat [mo1, mo2], digitsToNat [dy1, dy2],
        digitsToNat [h1, h2], digitsToNat [mi1, mi2], digitsToNat [s1, s2]] := by
  simp only [List.mem_cons, forall_eq_or_imp, List.not_mem_nil, false_implies,
    implies_true, and_true] at hdig
  obtain ⟨hy1, hy2, hy3, hy4, hm1, hm2, hdy1, hdy2, hh1, hh2, hmi1, hmi2, hs1, hs2⟩ := hdig
  refine matchToks_year_step _ _ _ _ _ _ _ hy1 hy2 hy3 hy4
    (matchToks_month_step _ _ _ _ _ hm1 hm2 hmo1 hmo2
      (matchToks_day_step _ _ _ _ _ hdy1 hdy2 hd1 hd2 ?_))
  rw [matchToks_blank_step _ _ _ hh1]
  exact matchToks_hour_step _ _ _ _ _ hh1 hh2 hh
    (matchToks_minute_step _ _ _ _ _ hmi1 hmi2 hmi
      (matchToks_second_step _ _ _ _ _ hs1 hs2 hs rfl))

/-! ## Decoding of well-formed partition names -/

/-- A list of length 8 is an explicit 8-tuple. -/
theorem list_len8 (D : List Char) (h : D.length = 8) :
    ∃ a b c d e f g k, D = [a, b, c, d, e, f, g, k] := by
  rcases D with _ | ⟨a, _ | ⟨b, _ | ⟨c, _ | ⟨d, _ | ⟨e, _ | ⟨f, _ | ⟨g, _ | ⟨k, rest⟩⟩⟩⟩⟩⟩⟩⟩ <;>
    simp at h
  subst h
  exact ⟨a, b, c, d, e, f, g, k, rfl⟩

/-- A list of length 6 is an explicit 6-tuple. -/
theorem list_len6 (T : List Char) (h : T.length = 6) :
    ∃ a b c d e f, T = [a, b, c, d, e, f] := by
  rcases T with _ | ⟨a, _ | ⟨b, _ | ⟨c, _ | ⟨d, _ | ⟨e, _ | ⟨f, rest⟩⟩⟩⟩⟩⟩ <;> simp at h
  subst h
  exact ⟨a, b, c, d, e, f, rfl⟩

/-- No month is longer than 31 days. -/
theorem daysInMonth_le_31 (y m : Nat) : daysInMonth y m ≤ 31 := by
  unfold daysInMonth
  split
  · split <;> omega
  · split <;> omega

/-- `strptimeCompact` on a valid 14-digit string returns the encoded
timestamp. -/
theorem strptimeCompact_valid
    (y1 y2 y3 y4 mo1 mo2 dy1 dy2 h1 h2 mi1 mi2 s1 s2 : Char)
    (hdig : ∀ c ∈ [y1, y2, y3, y4, mo1, mo2, dy1, dy2, h1, h2, mi1, mi2, s1, s2],
      c.isDigit = true)
    (hv : validDT (digitsToNat [y1, y2, y3, y4]) (digitsToNat [mo1, mo2])
      (digitsToNat [dy1, dy2]) (digitsToNat [h1, h2]) (digitsToNat [mi1, mi2])
      (digitsToNat [s1, s2])) :
    strptimeCompact [y1, y2, y3, y4, mo1, mo2, dy1, dy2, h1, h2, mi1, mi2, s1, s2]
    = some (toTimestamp (digitsToNat [y1, y2, y3, y4]) (digitsToNat [mo1, mo2])
        (digitsToNat [dy1, dy2]) (digitsToNat [h1, h2]) (digitsToNat [mi1, mi2])
        (digitsToNat [s1, s2])) := by
  obtain ⟨hy, hmo1, hmo2, hd1, hdm, hh, hmi, hs⟩ := hv
  have hd31 : digitsToNat [dy1, dy2] ≤ 31 := le_trans hdm (daysInMonth_le_31 _ _)
  rw [strptimeCompact,
    matchToks_valid_compact y1 y2 y3 y4 mo1 mo2 dy1 dy2 h1 h2 mi1 mi2 s1 s2 hdig
      hmo1 hmo2 hd1 hd31 hh hmi hs]
  simp [calendarOk, hy, hdm]

/-- `strptimeSpace` on a valid `"8 digits, blank, 6 digits"` string
returns the encoded timestamp. -/
theorem strptimeSpace_valid
    (y1 y2 y3 y4 mo1 mo2 dy1 dy2 h1 h2 mi1 mi2 s1 s2 : Char)
    (hdig : ∀ c ∈ [y1, y2, y3, y4, mo1, mo2, dy1, dy2, h1, h2, mi1, mi2, s1, s2],
      c.isDigit = true)
    (hv : validDT (digitsToNat [y1, y2, y3, y4]) (digitsToNat [mo1, mo2])
      (digitsToNat [dy1, dy2]) (digitsToNat [h1, h2]) (digitsToNat [mi1, mi2])
      (digitsToNat [s1, s2])) :
    strptimeSpace [y1, y2, y3, y4, mo1, mo2, dy1, dy2, ' ', h1, h2, mi1, mi2, s1, s2]
    = some (toTimestamp (digitsToNat [y1, y2, y3, y4]) (digitsToNat [mo1, mo2])
        (digitsToNat [dy1, dy2]) (digitsToNat [h1, h2]) (digitsToNat [mi1, mi2])
        (digitsToNat [s1, s2])) := by
  obtain ⟨hy, hmo1, hmo2, hd1, hdm, hh, hmi, hs⟩ := hv
  have hd31 : digitsToNat [dy1, dy2] ≤ 31 := le_trans hdm (daysInMonth_le_31 _ _)
  rw [strptimeSpace,
    matchToks_valid_space y1 y2 y3 y4 mo1 mo2 dy1 dy2 h1 h2 mi1 mi2 s1 s2 hdig
      hmo1 hmo2 hd1 hd31 hh hmi hs]
  simp [calendarOk, hy, hdm]

/-- Digit strings and the underscore contain no letter `p`, hence no
occurrence of `"_p"`. -/
theorem hasUP_no_p (s : List Char) (h : ∀ c ∈ s, c ≠ 'p') : hasUP s = false := by
  induction s with
  | nil => rfl
  | cons x rest ih =>
    cases rest with
    | nil => rfl
    | cons y r =>
      rw [hasUP]
      have hy : y ≠ 'p' := h y (by simp)
      have hrec : hasUP (y :: r) = false := ih (fun c hc => h c (List.mem_cons_of_mem x hc))
      simp [hy, hrec]

/-- Splitting a well-formed name on `'_'`: the last two chunks are the
`p`-prefixed date block and the time block. -/
theorem charSplit_wellformed (parent D T : List Char)
    (hDd : ∀ c ∈ D, c.isDigit = true) (hTd : ∀ c ∈ T, c.isDigit = true) :
    charSplit '_' (parent ++ '_' :: 'p' :: (D ++ '_' :: T))
      = charSplit '_' parent ++ [('p' :: D), T] := by
  have hpd : ∀ x ∈ 'p' :: D, x ≠ '_' := by
    intro x hx
    rcases List.mem_cons.mp hx with rfl | hx
    · decide
    · exact isDigit_ne_underscore x (hDd x hx)
  have ht : ∀ x ∈ T, x ≠ '_' := fun x hx => isDigit_ne_underscore x (hTd x hx)
  have h1 : 'p' :: (D ++ '_' :: T) = ('p' :: D) ++ '_' :: T := by simp
  rw [charSplit_append_sep, h1, charSplit_append_sep,
    charSplit_no_sep _ ('p' :: D) hpd, charSplit_no_sep _ T ht]
  simp

/-- Legacy decoding succeeds on every well-formed partition name, for
every parent table name. -/
theorem legacyDecode_wellformed (parent D T : List Char)
    (hD : D.length = 8) (hT : T.length = 6)
    (hDd : ∀ c ∈ D, c.isDigit = true) (hTd : ∀ c ∈ T, c.isDigit = true)
    (hv : validDT (digitsToNat (D.take 4)) (digitsToNat ((D.drop 4).take 2))
      (digitsToNat (D.drop 6)) (digitsToNat (T.take 2))
      (digitsToNat ((T.drop 2).take 2)) (digitsToNat (T.drop 4))) :
    legacyDecode (parent ++ '_' :: 'p' :: (D ++ '_' :: T))
      = some (toTimestamp (digitsToNat (D.take 4)) (digitsToNat ((D.drop 4).take 2))
          (digitsToNat (D.drop 6)) (digitsToNat (T.take 2))
          (digitsToNat ((T.drop 2).take 2)) (digitsToNat (T.drop 4))) := by
  obtain ⟨a1, a2, a3, a4, a5, a6, a7, a8, rfl⟩ := list_len8 D hD
  obtain ⟨b1, b2, b3, b4, b5, b6, rfl⟩ := list_len6 T hT
  have hdig : ∀ c ∈ [a1, a2, a3, a4, a5, a6, a7, a8, b1, b2, b3, b4, b5, b6],
      c.isDigit = true := by
    intro c hc
    rcases List.mem_append.mp
        (show c ∈ [a1, a2, a3, a4, a5, a6, a7, a8] ++ [b1, b2, b3, b4, b5, b6] from hc)
        with h | h
    · exact hDd c h
    · exact hTd c h
  rw [legacyDecode, charSplit_wellformed parent _ _ hDd hTd, List.reverse_append]
  simp only [List.reverse_cons, List.reverse_nil, List.nil_append, List.cons_append]
  simp only [List.take, List.drop] at hv ⊢
  exact strptimeSpace_valid a1 a2 a3 a4 a5 a6 a7 a8 b1 b2 b3 b4 b5 b6 hdig hv

/-- Server decoding succeeds on a well-formed partition name provided
the parent table name does not contain the substring `"_p"`. -/
theorem serverDecode_wellformed (parent D T : List Char)
    (hpar : hasUP parent = false)
    (hD : D.length = 8) (hT : T.length = 6)
    (hDd : ∀ c ∈ D, c.isDigit = true) (hTd : ∀ c ∈ T, c.isDigit = true)
    (hv : validDT (digitsToNat (D.take 4)) (digitsToNat ((D.drop 4).take 2))
      (digitsToNat (D.drop 6)) (digitsToNat (T.take 2))
      (digitsToNat ((T.drop 2).take 2)) (digitsToNat (T.drop 4))) :
    serverDecode (parent ++ '_' :: 'p' :: (D ++ '_' :: T))
      = some (toTimestamp (digitsToNat (D.take 4)) (digitsToNat ((D.drop 4).take 2))
          (digitsToNat (D.drop 6)) (digitsToNat (T.take 2))
          (digitsToNat ((T.drop 2).take 2)) (digitsToNat (T.drop 4))) := by
  obtain ⟨a1, a2, a3, a4, a5, a6, a7, a8, rfl⟩ := list_len8 D hD
  obtain ⟨b1, b2, b3, b4, b5, b6, rfl⟩ := list_len6 T hT
  have hnop : hasUP ([a1, a2, a3, a4, a5, a6, a7, a8] ++ '_' :: [b1, b2, b3, b4, b5, b6])
      = false := by
    apply hasUP_no_p
    intro c hc
    rcases List.mem_append.mp hc with h | h
    · exact isDigit_ne_p c (hDd c h)
    · rcases List.mem_cons.mp h with rfl | h
      · decide
      · exact isDigit_ne_p c (hTd c h)
  have hsplit : splitUP (parent ++ '_' :: 'p' ::
      ([a1, a2, a3, a4, a5, a6, a7, a8] ++ '_' :: [b1, b2, b3, b4, b5, b6]))
      = [parent, [a1, a2, a3, a4, a5, a6, a7, a8] ++ '_' :: [b1, b2, b3, b4, b5, b6]] := by
    rw [splitUP_append_sep _ _ hpar, splitUP_no_occ _ hnop]
  have hdig : ∀ c ∈ [a1, a2, a3, a4, a5, a6, a7, a8, b1, b2, b3, b4, b5, b6],
      c.isDigit = true := by
    intro c hc
    rcases List.mem_append.mp
        (show c ∈ [a1, a2, a3, a4, a5, a6, a7, a8] ++ [b1, b2, b3, b4, b5, b6] from hc)
        with h | h
    · exact hDd c h
    · exact hTd c h
  have hdate : charSplit '_' ([a1, a2, a3, a4, a5, a6, a7, a8] ++ '_' :: [b1, b2, b3, b4, b5, b6])
      = [[a1, a2, a3, a4, a5, a6, a7, a8], [b1, b2, b3, b4, b5, b6]] := by
    rw [charSplit_append_sep,
      charSplit_no_sep _ _ (fun x hx => isDigit_ne_underscore x (hDd x hx)),
      charSplit_no_sep _ _ (fun x hx => isDigit_ne_underscore x (hTd x hx))]
    rfl
  have htime : (charSplit '_' (parent ++ '_' :: 'p' ::
      ([a1, a2, a3, a4, a5, a6, a7, a8] ++ '_' :: [b1, b2, b3, b4, b5, b6]))).getLastD []
      = [b1, b2, b3, b4, b5, b6] := by
    rw [charSplit_wellformed parent _ _ hDd hTd]
    have hshape : charSplit '_' parent ++
        [('p' :: [a1, a2, a3, a4, a5, a6, a7, a8]), [b1, b2, b3, b4, b5, b6]]
        = (charSplit '_' parent ++ [('p' :: [a1, a2, a3, a4, a5, a6, a7, a8])])
          ++ [[b1, b2, b3, b4, b5, b6]] := by
      simp
    rw [hshape, List.getLastD_concat]
  rw [serverDecode, hsplit]
  simp only [List.headD, hdate, htime]
  simp only [List.take, List.drop] at hv ⊢
  simp only [List.cons_append, List.nil_append]
  exact strptimeCompact_valid a1 a2 a3 a4 a5 a6 a7 a8 b1 b2 b3 b4 b5 b6 hdig hv

/-! ## Characterization of the partition-name regex -/

/-- Unfolding of `parseRx` at a cons cell. -/
theorem parseRx_cons (x : Char) (rest : List Char) :
    parseRx (x :: rest) =
      (if x = '\\' then
        match rest with
        | [] => [.lit '\\']
        | c :: rest2 => (if c = 'd' then .digit else .lit c) :: parseRx rest2
      else if x = '.' then .anyChar :: parseRx rest
      else .lit x :: parseRx rest) := by
  rw [parseRx.eq_def]

/-- A word character is compiled to a literal atom. -/
theorem parseRx_word (tbl : List Char) (h : ∀ c ∈ tbl, isWordChar c = true) :
    parseRx tbl = tbl.map RAtom.lit := by
  induction tbl with
  | nil => rfl
  | cons x rest ih =>
    have hx := h x (List.mem_cons_self x rest)
    have hx1 : x ≠ '\\' := by rintro rfl; exact absurd hx (by decide)
    have hx2 : x ≠ '.' := by rintro rfl; exact absurd hx (by decide)
    rw [parseRx_cons, if_neg hx1, if_neg hx2,
      ih (fun c hc => h c (List.mem_cons_of_mem x hc))]
    rfl

/-- Matching a run of literal atoms consumes exactly those characters. -/
theorem matchesAtoms_append_lits (tbl : List Char) (rest : List RAtom) (s : List Char) :
    matchesAtoms (tbl.map .lit ++ rest) s = true ↔
      ∃ s2, s = tbl ++ s2 ∧ matchesAtoms rest s2 = true := by
  induction tbl generalizing s with
  | nil => simp
  | cons c tbl ih =>
    cases s with
    | nil =>
      constructor
      · intro h
        simp [matchesAtoms] at h
      · rintro ⟨s2, heq, -⟩
        exact absurd heq (by simp)
    | cons x s =>
      simp only [List.map_cons, List.cons_append, matchesAtoms, Bool.and_eq_true,
        atomMatches, beq_iff_eq, List.append_eq]
      rw [ih]
      constructor
      · rintro ⟨rfl, s2, rfl, hm⟩
        exact ⟨s2, rfl, hm⟩
      · rintro ⟨s2, heq, hm⟩
        injection heq with h1 h2
        exact ⟨h1, s2, h2, hm⟩

/-- Matching a run of `n` digit atoms consumes exactly `n` digit
characters. -/
theorem matchesAtoms_append_digits (n : Nat) (rest : List RAtom) (s : List Char) :
    matchesAtoms (List.replicate n .digit ++ rest) s = true ↔
      ∃ D s2, s = D ++ s2 ∧ D.length = n ∧ (∀ c ∈ D, c.isDigit = true) ∧
        matchesAtoms rest s2 = true := by
  induction n generalizing s with
  | zero =>
    simp only [List.replicate, List.nil_append]
    constructor
    · intro h
      exact ⟨[], s, rfl, rfl, by simp, h⟩
    · rintro ⟨D, s2, rfl, hlen, -, hm⟩
      have hD : D = [] := List.length_eq_zero.mp hlen
      subst hD
      simpa using hm
  | succ n ih =>
    cases s with
    | nil =>
      constructor
      · intro h
        simp [List.replicate, matchesAtoms] at h
      · rintro ⟨D, s2, heq, hlen, -, -⟩
        cases D with
        | nil => simp at hlen
        | cons d D => exact absurd heq (by simp)
    | cons x s =>
      simp only [List.replicate, List.cons_append, matchesAtoms, Bool.and_eq_true,
        atomMatches, List.append_eq]
      rw [ih]
      constructor
      · rintro ⟨hx, D, s2, rfl, hlen, hD, hm⟩
        refine ⟨x :: D, s2, rfl, by simp [hlen], ?_, hm⟩
        intro c hc
        rcases List.mem_cons.mp hc with rfl | hc
        · exact hx
        · exact hD c hc
      · rintro ⟨D, s2, heq, hlen, hD, hm⟩
        cases D with
        | nil => simp at hlen
        | cons d D =>
          rw [List.cons_append] at heq
          injection heq with h1 h2
          subst h1
          refine ⟨hD x (List.mem_cons_self x D), D, s2, h2, by simpa using hlen,
            fun c hc => hD c (List.mem_cons_of_mem x hc), hm⟩

/-- The empty atom list matches only the empty string. -/
theorem matchesAtoms_nil (s : List Char) : matchesAtoms [] s = true ↔ s = [] := by
  cases s <;> simp [matchesAtoms]

/-- For a parent name of word characters only, the spliced pattern
matches exactly the names of the literal convention
`{parent}_p{8 digits}_{6 digits}`. -/
theorem reMatchPattern_wordchar (tbl name : List Char)
    (h : ∀ c ∈ tbl, isWordChar c = true) :
    reMatchPattern tbl name = true ↔
      ∃ D T, name = tbl ++ '_' :: 'p' :: (D ++ '_' :: T) ∧ D.length = 8 ∧
        T.length = 6 ∧ (∀ c ∈ D, c.isDigit = true) ∧ (∀ c ∈ T, c.isDigit = true) := by
  rw [reMatchPattern, compileTablePattern, parseRx_word tbl h]
  have hshape : List.map RAtom.lit tbl ++ [RAtom.lit '_', RAtom.lit 'p'] ++
      List.replicate 8 RAtom.digit ++ [RAtom.lit '_'] ++ List.replicate 6 RAtom.digit
      = List.map RAtom.lit (tbl ++ ['_', 'p']) ++ (List.replicate 8 RAtom.digit ++
        (List.map RAtom.lit ['_'] ++ (List.replicate 6 RAtom.digit ++ []))) := by
    simp
  rw [hshape]
  constructor
  · intro hm
    obtain ⟨s1, h1, hm⟩ := (matchesAtoms_append_lits _ _ _).mp hm
    obtain ⟨D, s2, h2, hD8, hDd, hm⟩ := (matchesAtoms_append_digits _ _ _).mp hm
    obtain ⟨s3, h3, hm⟩ := (matchesAtoms_append_lits _ _ _).mp hm
    obtain ⟨T, s4, h4, hT6, hTd, hm⟩ := (matchesAtoms_append_digits _ _ _).mp hm
    have h5 : s4 = [] := (matchesAtoms_nil s4).mp hm
    subst h5 h4 h3 h2
    refine ⟨D, T, ?_, hD8, hT6, hDd, hTd⟩
    rw [h1]
    simp
  · rintro ⟨D, T, rfl, hD8, hT6, hDd, hTd⟩
    apply (matchesAtoms_append_lits _ _ _).mpr
    refine ⟨D ++ '_' :: T, by simp, ?_⟩
    apply (matchesAtoms_append_digits _ _ _).mpr
    refine ⟨D, '_' :: T, rfl, hD8, hDd, ?_⟩
    apply (matchesAtoms_append_lits _ _ _).mpr
    refine ⟨T, rfl, ?_⟩
    apply (matchesAtoms_append_digits _ _ _).mpr
    exact ⟨T, [], by simp, hT6, hTd, rfl⟩

/-! ## Pass-level facts -/

/-- Unfolding of the server loop at a cons cell. -/
theorem serverLoop_cons (tbl schema : String) (rs now : Int) (db : Db)
    (name : String) (rest : List String) :
    serverLoop tbl schema rs now db (name :: rest)
      = (serverPartitionStep tbl schema rs now db name).app
          (serverLoop tbl schema rs now db rest) := rfl

/-- Components of a `PassOut` concatenation. -/
theorem PassOut_app_mk (e1 : List Effect) (n1 : List Note) (b : PassOut) :
    (PassOut.mk e1 n1).app b = ⟨e1 ++ b.effects, n1 ++ b.notes⟩ := rfl

/-- A partition whose name fails the regex produces no statement and a
format-skip note. -/
theorem serverPartitionStep_skip_format (tbl schema : String) (rs now : Int)
    (db : Db) (name : String)
    (hm : reMatchPattern tbl.data name.data = false) :
    serverPartitionStep tbl schema rs now db name = ⟨[], [.skippedFormat name]⟩ := by
  simp [serverPartitionStep, hm]

/-- A partition whose name matches but does not parse produces no
statement and a parse-skip note. -/
theorem serverPartitionStep_skip_parse (tbl schema : String) (rs now : Int)
    (db : Db) (name : String)
    (hm : reMatchPattern tbl.data name.data = true)
    (hd : serverDecode name.data = none) :
    serverPartitionStep tbl schema rs now db name = ⟨[], [.skippedParse name]⟩ := by
  simp [serverPartitionStep, hm, hd]

/-- An eligible partition (decoded timestamp strictly below the cutoff)
produces exactly its DROP statement; the note records whether the DROP
raised, and in either case it is the only consequence. -/
theorem serverPartitionStep_eligible (tbl schema : String) (rs now : Int)
    (db : Db) (name : String) (t : Nat)
    (hm : reMatchPattern tbl.data name.data = true)
    (hd : serverDecode name.data = some t)
    (hlt : (t : Int) < now - rs) :
    serverPartitionStep tbl schema rs now db name
      = ⟨[.dropTable schema name],
         [if db.dropFails name then .dropError name else .droppedMsg name]⟩ := by
  simp [serverPartitionStep, hm, hd, hlt]

/-- A matched partition at or above the cutoff is retained: no
statement. -/
theorem serverPartitionStep_retained (tbl schema : String) (rs now : Int)
    (db : Db) (name : String) (t : Nat)
    (hm : reMatchPattern tbl.data name.data = true)
    (hd : serverDecode name.data = some t)
    (hge : ¬ (t : Int) < now - rs) :
    serverPartitionStep tbl schema rs now db name = ⟨[], [.retained name]⟩ := by
  simp [serverPartitionStep, hm, hd, hge]

/-- The server per-table pass of the coordinator ends in a `success`
outcome for every present table with a pure time-retention policy —
whatever the partitions and however many DROPs fail. -/
theorem tableOutcome_success (db : Db) (now : Int) (cfg : ApiTableConfig)
    (tr : DataRetentionPolicyTimeRetention)
    (hpol : cfg.retention_policy = ⟨some tr, none⟩)
    (hex : db.tableExists cfg.table_name cfg.schema_name = true) :
    tableOutcome db now cfg
      = ⟨cfg.table_name, cfg.schema_name, "success",
         "Successfully processed table " ++ cfg.schema_name ++ "." ++ cfg.table_name⟩ := by
  simp [tableOutcome, processTableInner, serverValidate, tableModelOf, domainPolicyOf,
    hpol, hex, DataRetentionPolicy.validate, timeretentionTruthy, conditionsTruthy]

/-- The accumulating loop of `prune_tables` is the map of the per-table
outcome over the batch. -/
theorem pruneTablesAux_eq_map (db : Db) (now : Int) (acc : List PruneResponseDetail)
    (cfgs : List ApiTableConfig) :
    pruneTablesAux db now acc cfgs = acc ++ cfgs.map (tableOutcome db now) := by
  induction cfgs generalizing acc with
  | nil => simp [pruneTablesAux]
  | cons cfg rest ih => simp [pruneTablesAux, ih]

/-- Every outcome detail carries the table and schema of its own
config. -/
theorem tableOutcome_fields (db : Db) (now : Int) (cfg : ApiTableConfig) :
    (tableOutcome db now cfg).table_name = cfg.table_name ∧
      (tableOutcome db now cfg).schema_name = cfg.schema_name := by
  rcases hsv : serverValidate db (tableModelOf cfg) with ⟨res, effs⟩
  rcases res with e | b
  · simp [tableOutcome, processTableInner, hsv]
  · rcases b with _ | _
    · simp [tableOutcome, processTableInner, hsv]
    · rcases hpol : (tableModelOf cfg).retention_policy with _ | p
      · simp [tableOutcome, processTableInner, hsv, hpol]
      · simp [tableOutcome, processTableInner, hsv, hpol]

/-! ## Claim theorems -/

/-- C5: for every `RetentionPolicy`, `DataRetentionPolicy.validate`
succeeds iff exactly one of the `timeretention` and `conditions`
variants is non-empty (Python-truthy); it fails with the
missing-variant `ValueError` when neither is set and with the
ambiguous-variant `ValueError` when both are set. -/
theorem C5_policy_validate_xor (p : DataRetentionPolicy) :
    (p.validate = Except.ok true ↔ timeretentionTruthy p ≠ conditionsTruthy p) ∧
    (p.validate = Except.error "Either timeretention or conditions must be provided" ↔
      (timeretentionTruthy p = false ∧ conditionsTruthy p = false)) ∧
    (p.validate = Except.error "Only one of timeretention or conditions can be provided" ↔
      (timeretentionTruthy p = true ∧ conditionsTruthy p = true)) := by
  have hEO : ("Either timeretention or conditions must be provided" : String)
      ≠ "Only one of timeretention or conditions can be provided" := by decide
  rcases htr : timeretentionTruthy p <;> rcases hc : conditionsTruthy p <;>
    simp [DataRetentionPolicy.validate, htr, hc, hEO, Ne.symm hEO]

/-- C9: the coordinator produces exactly one outcome per input element,
in input order — the result is the map of the per-table outcome over
the batch — every outcome names its own table and schema, and a
per-table exception becomes that table's error outcome without
affecting any other element. -/
theorem C9_batch_outcomes (db : Db) (now : Int) (cfgs : List ApiTableConfig) :
    (pruneTables db now cfgs).length = cfgs.length ∧
    (∀ i (h1 : i < cfgs.length) (h2 : i < (pruneTables db now cfgs).length),
      (pruneTables db now cfgs).get ⟨i, h2⟩ = tableOutcome db now (cfgs.get ⟨i, h1⟩)) ∧
    (∀ cfg, (tableOutcome db now cfg).table_name = cfg.table_name ∧
      (tableOutcome db now cfg).schema_name = cfg.schema_name) ∧
    (∀ cfg e, (processTableInner db now cfg).1 = .error e →
      tableOutcome db now cfg = ⟨cfg.table_name, cfg.schema_name, "error", e⟩) := by
  have hmap : pruneTables db now cfgs = cfgs.map (tableOutcome db now) := by
    rw [pruneTables, pruneTablesAux_eq_map]
    rfl
  refine ⟨by simp [hmap], ?_, fun cfg => tableOutcome_fields db now cfg, ?_⟩
  · intro i h1 h2
    simp [hmap, List.get_eq_getElem, List.getElem_map]
  · intro cfg e he
    simp [tableOutcome, he]

/-- C9 witness: a concrete two-table batch receives exactly two
outcomes, in order, with the error-isolation property instantiated. -/
theorem C9_batch_outcomes_witness :
    (pruneTables dbBasic nowRef [cfgBasic, cfgOther]).length = 2 ∧
    (pruneTables dbBasic nowRef [cfgBasic, cfgOther]).get ⟨0, by decide⟩
      = tableOutcome dbBasic nowRef cfgBasic := by
  refine ⟨(C9_batch_outcomes dbBasic nowRef [cfgBasic, cfgOther]).1, ?_⟩
  exact (C9_batch_outcomes dbBasic nowRef [cfgBasic, cfgOther]).2.1 0 (by decide) (by decide)

/-- C10: the parent table name is interpolated unescaped into the
partition regex.  For word-character parents the pattern accepts
exactly the literal naming convention; but for the parent `a.b`, whose
dot is a regex wildcard, the partition `axb_p20230101_000000` — which
does not start with the parent name — is accepted by the pattern and
decoded by both decoders. -/
theorem C10_regex_interpolation :
    (∀ tbl name : String, (∀ c ∈ tbl.data, isWordChar c = true) →
      (reMatchPattern tbl.data name.data = true ↔
        ∃ D T, name.data = tbl.data ++ '_' :: 'p' :: (D ++ '_' :: T) ∧ D.length = 8 ∧
          T.length = 6 ∧ (∀ c ∈ D, c.isDigit = true) ∧ (∀ c ∈ T, c.isDigit = true))) ∧
    reMatchPattern "a.b".data "axb_p20230101_000000".data = true ∧
    List.isPrefixOf "a.b".data "axb_p20230101_000000".data = false ∧
    serverDecode "axb_p20230101_000000".data = some (toTimestamp 2023 1 1 0 0 0) ∧
    legacyDecode "axb_p20230101_000000".data = some (toTimestamp 2023 1 1 0 0 0) := by
  refine ⟨fun tbl name h => reMatchPattern_wordchar tbl.data name.data h, ?_, ?_, ?_, ?_⟩ <;>
    decide

/-- C10 witness: the word-character characterization applied to the
parent `events` and the partition `events_p20230101_000000`. -/
theorem C10_regex_interpolation_witness :
    reMatchPattern "events".data "events_p20230101_000000".data = true := by
  refine (C10_regex_interpolation.1 "events" "events_p20230101_000000" (by decide)).mpr
    ⟨"20230101".data, "000000".data, by decide, by decide, by decide, by decide, by decide⟩

/-- C1: at the scenario input (table `public.test_table1`, one aged and
one future child partition, time-retention policy), the legacy
`_drop_table` issues `DROP TABLE IF EXISTS public.test_table1` — the
parent table itself (src/models.py lines 142-144) — contradicting the
claim that only eligible child partitions are mutated; the reworked
server pass at the same input drops exactly the one aged child and
never the parent. -/
theorem C1_legacy_drops_parent_table :
    (legacyDropTable dbBasic mBasic nowRef).effects
      = [.selectPartitions "test_table1",
         .dropTable "public" "test_table1_p20230101_000000", .commit,
         .dropTable "public" "test_table1", .commit] ∧
    Effect.dropTable "public" "test_table1" ∈ (legacyDropTable dbBasic mBasic nowRef).effects ∧
    (serverDropTablePartitions dbBasic mBasic nowRef).effects
      = [.selectPartitionsQ "test_table1" "public",
         .dropTable "public" "test_table1_p20230101_000000", .commit] ∧
    Effect.dropTable "public" "test_table1" ∉
      (serverDropTablePartitions dbBasic mBasic nowRef).effects := by
  refine ⟨?_, ?_, ?_, ?_⟩ <;> decide

/-- C2: when the catalog reports the table absent, the legacy `validate`
still returns `True` — the `table_exists = False` branch at
src/models.py line 64 is overwritten by the unconditional
`table_exists = True` on line 65 — so pruning proceeds on a missing
table, contradicting the claim; the server `validate` at the same
input returns `False` and the coordinator records an error outcome
after only the existence query. -/
theorem C2_legacy_validate_ignores_absence :
    dbAbsent.tableExists "test_table1" "public" = false ∧
    legacyValidate dbAbsent mBasic = (.ok true, [.existsCheck "test_table1" "public"]) ∧
    (serverValidate dbAbsent mBasic).1 = .ok false ∧
    (tableOutcome dbAbsent nowRef cfgBasic).status = "error" ∧
    (processTableInner dbAbsent nowRef cfgBasic).2.effects
      = [.existsCheck "test_table1" "public"] := by
  refine ⟨by decide, by rfl, by rfl, by decide, by decide⟩

/-- C3: the legacy cutoff is not `now_utc() - retention`: it is the
naive local wall clock re-branded UTC-5, i.e. the instant
`local_now + 5h - retention`.  On a host whose local clock reads UTC,
with the clock at exactly the partition's timestamp and a 15-second
retention, the partition timestamp is not below `now - retention`
(the claim would retain it), yet the legacy pass drops it; the server
pass at the same instant retains it, its cutoff being
`now_utc - retention` with the strict comparison. -/
theorem C3_legacy_cutoff_not_utc :
    ¬ ((ts2023 : Int) < (ts2023 : Int) - 15) ∧
    Effect.dropTable "public" "test_table1_p20230101_000000" ∈
      (legacyDropTable dbBasic mBasic (ts2023 : Int)).effects ∧
    (serverDropTablePartitions dbBasic mBasic (ts2023 : Int)).effects
      = [.selectPartitionsQ "test_table1" "public", .commit] ∧
    Note.retained "test_table1_p20230101_000000" ∈
      (serverDropTablePartitions dbBasic mBasic (ts2023 : Int)).notes := by
  refine ⟨?_, ?_, ?_, ?_⟩ <;> decide

/-- C4 counterexample: for the parent `my_ptable`, whose name contains
`"_p"`, the partition `my_ptable_p20230101_000000` is well-formed and
matches the pattern, and the legacy decoder reads it correctly, but the
server decoder — which splits on the first `"_p"` occurrence — fails to
decode it, so the claim "decoding yields exactly the UTC timestamp for
every parent table name" is false of the server implementation. -/
theorem C4_server_decode_counterexample :
    reMatchPattern "my_ptable".data "my_ptable_p20230101_000000".data = true ∧
    legacyDecode "my_ptable_p20230101_000000".data = some (toTimestamp 2023 1 1 0 0 0) ∧
    serverDecode "my_ptable_p20230101_000000".data = none := by
  refine ⟨?_, ?_, ?_⟩ <;> decide

/-- C4 (amended): for every partition name of the form
`{parent}_p{YYYYMMDD}_{HHMMSS}` whose digits form a valid calendar
date and time, the legacy decoder yields exactly that UTC timestamp
for every parent table name; the server decoder yields it for every
parent table name that does not contain the substring `"_p"`. -/
theorem C4_decode_wellformed_amended (parent : String) (D T : List Char)
    (hD : D.length = 8) (hT : T.length = 6)
    (hDd : ∀ c ∈ D, c.isDigit = true) (hTd : ∀ c ∈ T, c.isDigit = true)
    (hv : validDT (digitsToNat (D.take 4)) (digitsToNat ((D.drop 4).take 2))
      (digitsToNat (D.drop 6)) (digitsToNat (T.take 2))
      (digitsToNat ((T.drop 2).take 2)) (digitsToNat (T.drop 4))) :
    legacyDecode (parent ++ "_p" ++ String.mk D ++ "_" ++ String.mk T).data
      = some (toTimestamp (digitsToNat (D.take 4)) (digitsToNat ((D.drop 4).take 2))
          (digitsToNat (D.drop 6)) (digitsToNat (T.take 2))
          (digitsToNat ((T.drop 2).take 2)) (digitsToNat (T.drop 4))) ∧
    (hasUP parent.data = false →
      serverDecode (parent ++ "_p" ++ String.mk D ++ "_" ++ String.mk T).data
        = some (toTimestamp (digitsToNat (D.take 4)) (digitsToNat ((D.drop 4).take 2))
            (digitsToNat (D.drop 6)) (digitsToNat (T.take 2))
            (digitsToNat ((T.drop 2).take 2)) (digitsToNat (T.drop 4)))) := by
  have h1 : ("_p" : String).data = ['_', 'p'] := rfl
  have h2 : ("_" : String).data = ['_'] := rfl
  have hdata : (parent ++ "_p" ++ String.mk D ++ "_" ++ String.mk T).data
      = parent.data ++ '_' :: 'p' :: (D ++ '_' :: T) := by
    simp only [String.data_append, h1, h2]
    simp
  rw [hdata]
  exact ⟨legacyDecode_wellformed parent.data D T hD hT hDd hTd hv,
    fun hp => serverDecode_wellformed parent.data D T hp hD hT hDd hTd hv⟩

/-- C4 witness: the amended theorem applied to parent `events`, date
`20230101`, time `000000`. -/
theorem C4_decode_wellformed_witness :
    legacyDecode ("events" ++ "_p" ++ String.mk "20230101".data ++ "_"
        ++ String.mk "000000".data).data
      = some (toTimestamp 2023 1 1 0 0 0) ∧
    serverDecode ("events" ++ "_p" ++ String.mk "20230101".data ++ "_"
        ++ String.mk "000000".data).data
      = some (toTimestamp 2023 1 1 0 0 0) := by
  have h := C4_decode_wellformed_amended "events" "20230101".data "000000".data
    (by decide) (by decide) (by decide) (by decide) (by decide)
  exact ⟨h.1.trans (by decide), (h.2 (by decide)).trans (by decide)⟩

/-- C6 counterexample: for the shape-invalid policy with both variants
set, the per-table pass does fail — but only after the existence query
has been sent to the database, so "fails without any database query
having been issued" is false: `PostgresTableModel.validate` runs the
existence query first and the policy check second. -/
theorem C6_existence_query_before_policy_check :
    (processTableInner dbBasic nowRef cfgBoth).1
      = .error "Only one of timeretention or conditions can be provided" ∧
    (processTableInner dbBasic nowRef cfgBoth).2.effects
      = [.existsCheck "test_table1" "public"] ∧
    (processTableInner dbBasic nowRef cfgBoth).2.effects ≠ [] := by
  refine ⟨by rfl, by decide, by decide⟩

/-- C6 (amended): policy-shape validation is a pure function; in the
per-table pass it runs after the read-only existence check, so a
malformed policy (neither or both variants set) fails the pass with
exactly the existence query issued and nothing else — no partition
discovery, no DROP, no commit. -/
theorem C6_malformed_policy_amended (db : Db) (now : Int) (cfg : ApiTableConfig)
    (msg : String)
    (hmal : (domainPolicyOf cfg.retention_policy).validate = .error msg) :
    (processTableInner db now cfg).1 = .error msg ∧
    (processTableInner db now cfg).2.effects
      = [.existsCheck cfg.table_name cfg.schema_name] := by
  simp [processTableInner, serverValidate, tableModelOf, hmal]

/-- C6 witness: the amended theorem applied to the both-variants
policy. -/
theorem C6_malformed_policy_witness :
    (processTableInner dbBasic nowRef cfgBoth).1
      = .error "Only one of timeretention or conditions can be provided" ∧
    (processTableInner dbBasic nowRef cfgBoth).2.effects
      = [.existsCheck "test_table1" "public"] :=
  C6_malformed_policy_amended dbBasic nowRef cfgBoth _ (by rfl)

/-- C7 counterexample: the partition `test_table1_p20230230_000000`
matches the regex but carries the calendar-invalid date February 30;
in the legacy implementation the unguarded `strptime` raises, the
table's pass aborts (no commit, nothing skipped) instead of skipping
the partition and completing — so the claim fails on
src/models.py. -/
theorem C7_legacy_invalid_calendar_aborts :
    reMatchPattern "test_table1".data "test_table1_p20230230_000000".data = true ∧
    legacyDecode "test_table1_p20230230_000000".data = none ∧
    (legacyDropTable dbBadCal mBasic nowRef).raised = true ∧
    (legacyDropTable dbBadCal mBasic nowRef).effects = [.selectPartitions "test_table1"] ∧
    (legacyDropTable dbBadCal mBasic nowRef).notes = [] := by
  refine ⟨?_, ?_, ?_, ?_, ?_⟩ <;> decide

/-- C7 (amended): a partition that fails the anchored pattern is
skipped with a note and processing continues in both implementations;
a partition whose digits fail date/time parsing is skipped and the
table still reaches its success outcome in the server implementation,
while in the legacy implementation the parse failure raises and aborts
the table's pass. -/
theorem C7_skip_and_continue_amended :
    (∀ (tbl schema : String) (rs now : Int) (db : Db) (name : String) (rest : List String),
      reMatchPattern tbl.data name.data = false →
        serverLoop tbl schema rs now db (name :: rest)
          = ⟨(serverLoop tbl schema rs now db rest).effects,
             .skippedFormat name :: (serverLoop tbl schema rs now db rest).notes⟩) ∧
    (∀ (tbl schema : String) (rs now : Int) (db : Db) (name : String) (rest : List String),
      reMatchPattern tbl.data name.data = true → serverDecode name.data = none →
        serverLoop tbl schema rs now db (name :: rest)
          = ⟨(serverLoop tbl schema rs now db rest).effects,
             .skippedParse name :: (serverLoop tbl schema rs now db rest).notes⟩) ∧
    (∀ (db : Db) (now : Int) (cfg : ApiTableConfig) (tr : DataRetentionPolicyTimeRetention),
      cfg.retention_policy = ⟨some tr, none⟩ →
      db.tableExists cfg.table_name cfg.schema_name = true →
      (tableOutcome db now cfg).status = "success") ∧
    (∀ (tbl schema : String) (rs nowLocal : Int) (db : Db) (name : String) (rest : List String),
      reMatchPattern tbl.data name.data = false →
        legacyLoop tbl schema rs nowLocal db (name :: rest)
          = ⟨(legacyLoop tbl schema rs nowLocal db rest).effects,
             .skippedFormat name :: (legacyLoop tbl schema rs nowLocal db rest).notes,
             (legacyLoop tbl schema rs nowLocal db rest).raised⟩) ∧
    (∀ (tbl schema : String) (rs nowLocal : Int) (db : Db) (name : String) (rest : List String),
      reMatchPattern tbl.data name.data = true → legacyDecode name.data = none →
        legacyLoop tbl schema rs nowLocal db (name :: rest) = ⟨[], [], true⟩) := by
  refine ⟨?_, ?_, ?_, ?_, ?_⟩
  · intro tbl schema rs now db name rest hm
    rw [serverLoop_cons, serverPartitionStep_skip_format tbl schema rs now db name hm,
      PassOut_app_mk]
    simp
  · intro tbl schema rs now db name rest hm hd
    rw [serverLoop_cons, serverPartitionStep_skip_parse tbl schema rs now db name hm hd,
      PassOut_app_mk]
    simp
  · intro db now cfg tr hpol hex
    rw [tableOutcome_success db now cfg tr hpol hex]
  · intro tbl schema rs nowLocal db name rest hm
    simp [legacyLoop, hm]
  · intro tbl schema rs nowLocal db name rest hm hd
    simp [legacyLoop, hm, hd]

/-- C7 witness: the spec scenario — partition `events_pARCHIVE` is
skipped with a note, and a present table with a time-retention policy
still ends in the success outcome. -/
theorem C7_skip_and_continue_witness :
    serverLoop "events" "public" 15 nowRef dbBasic ["events_pARCHIVE"]
      = ⟨[], [.skippedFormat "events_pARCHIVE"]⟩ ∧
    (tableOutcome dbBasic nowRef cfgBasic).status = "success" := by
  constructor
  · rw [C7_skip_and_continue_amended.1 "events" "public" 15 nowRef dbBasic
      "events_pARCHIVE" [] (by decide)]
    rfl
  · exact C7_skip_and_continue_amended.2.2.1 dbBasic nowRef cfgBasic ⟨"mtime", 15⟩
      rfl (by decide)

/-- C8 counterexample: with two aged partitions of which the first DROP
fails, the legacy implementation — which has no try/except around the
DROP — aborts the table's pass: the exception escapes, the second
partition is never dropped and no commit happens, contradicting
"a single drop failure never aborts the table's pass". -/
theorem C8_legacy_drop_failure_aborts :
    dbDropFail.dropFails "test_table1_p20230101_000000" = true ∧
    (legacyDropTable dbDropFail mBasic nowRef).raised = true ∧
    (legacyDropTable dbDropFail mBasic nowRef).effects
      = [.selectPartitions "test_table1",
         .dropTable "public" "test_table1_p20230101_000000"] ∧
    Effect.dropTable "public" "test_table1_p20230102_000000" ∉
      (legacyDropTable dbDropFail mBasic nowRef).effects := by
  refine ⟨?_, ?_, ?_, ?_⟩ <;> decide

/-- C8 (amended): in the server implementation a failure dropping one
eligible partition is caught, recorded as a note, and the loop
continues with the remaining partitions, the table still reaching its
success outcome; in the legacy implementation the same failure raises
and aborts the table's pass with the remaining partitions
unprocessed. -/
theorem C8_drop_failure_amended :
    (∀ (tbl schema : String) (rs now : Int) (db : Db) (name : String) (rest : List String)
        (t : Nat),
      reMatchPattern tbl.data name.data = true → serverDecode name.data = some t →
      (t : Int) < now - rs → db.dropFails name = true →
        serverLoop tbl schema rs now db (name :: rest)
          = ⟨.dropTable schema name :: (serverLoop tbl schema rs now db rest).effects,
             .dropError name :: (serverLoop tbl schema rs now db rest).notes⟩) ∧
    (∀ (db : Db) (now : Int) (cfg : ApiTableConfig) (tr : DataRetentionPolicyTimeRetention),
      cfg.retention_policy = ⟨some tr, none⟩ →
      db.tableExists cfg.table_name cfg.schema_name = true →
      (tableOutcome db now cfg).status = "success") ∧
    (∀ (tbl schema : String) (rs nowLocal : Int) (db : Db) (name : String) (rest : List String)
        (t : Nat),
      reMatchPattern tbl.data name.data = true → legacyDecode name.data = some t →
      (t : Int) < nowLocal - rs + 18000 → db.dropFails name = true →
        legacyLoop tbl schema rs nowLocal db (name :: rest)
          = ⟨[.dropTable schema name], [], true⟩) := by
  refine ⟨?_, ?_, ?_⟩
  · intro tbl schema rs now db name rest t hm hd hlt hfail
    rw [serverLoop_cons, serverPartitionStep_eligible tbl schema rs now db name t hm hd hlt,
      PassOut_app_mk]
    simp [hfail]
  · intro db now cfg tr hpol hex
    rw [tableOutcome_success db now cfg tr hpol hex]
  · intro tbl schema rs nowLocal db name rest t hm hd hlt hfail
    simp [legacyLoop, hm, hd, hlt, hfail]

/-- C8 witness: the server loop over the two-partition drop-failure
scenario records the failed DROP and still processes and drops the
second partition; the table outcome is success. -/
theorem C8_drop_failure_witness :
    serverLoop "test_table1" "public" 15 nowRef dbDropFail
        ["test_table1_p20230101_000000", "test_table1_p20230102_000000"]
      = ⟨[.dropTable "public" "test_table1_p20230101_000000",
          .dropTable "public" "test_table1_p20230102_000000"],
         [.dropError "test_table1_p20230101_000000",
          .droppedMsg "test_table1_p20230102_000000"]⟩ ∧
    (tableOutcome dbDropFail nowRef cfgBasic).status = "success" := by
  constructor
  · rw [C8_drop_failure_amended.1 "test_table1" "public" 15 nowRef dbDropFail
      "test_table1_p20230101_000000" ["test_table1_p20230102_000000"]
      (toTimestamp 2023 1 1 0 0 0) (by decide) (by decide) (by decide) (by decide)]
    decide
  · exact C8_drop_failure_amended.2.1 dbDropFail nowRef cfgBasic ⟨"mtime", 15⟩
      rfl (by decide)

end Retention
